import Mathlib

/-!
Verification development for the `sshconfig` repository (an OpenSSH client
configuration parser written in Go).

The definitions below are a shallow embedding of `parser.go`:

* `Forward`, `DynamicForward`, `SSHHost` mirror the exported structs;
* `NewForward` / `NewDynamicForward` embed the Go functions of the same name,
  including the behaviour of `regexp.FindStringSubmatch` on the two fixed
  patterns `((\S+):)?(\d+)\s+(\S+):(\d+)` and `((\S+):)?(\d+)` (leftmost
  match, Perl-style greedy/backtracking submatch semantics as implemented by
  Go's regexp package);
* `containsWildcard`, `matchWildcardHost`, `applyWildcardRules`,
  `mergeSSHConfigs` (with the per-field behaviour of `setFieldByName`) and
  `assertDefaultPort` embed the wildcard-merge phase;
* `parseLoop` / `parse` embed the token-consuming loop of `parse`, with the
  include-resolution block (path expansion, globbing, reading and recursive
  parsing of files) abstracted as a function parameter, matching the spec's
  view of file reading as an external collaborator;
* the lexer itself is not part of the repository sources available here
  (only its callers are), so `lexAll` is modelled from the spec; all general
  theorems are stated at the token level, over the real `parseLoop` code.

Machine integers: the Go code uses `int` (64-bit); ports are embedded as
unbounded `Int` with the `strconv.Atoi` range check
(-2^63 .. 2^63-1) made explicit in `goAtoi`, which is the only place the
Go code can overflow.
-/

/-- Character class of Go's regexp `\s` (RE2: space, tab, newline,
form feed, carriage return). -/
def isGoSpace (c : Char) : Bool :=
  c = ' ' || c = '\t' || c = '\n' || c = '\x0c' || c = '\r'

/-- Model of Go `strings.Split(s, sep)` for a one-character separator:
splits at every occurrence, `\x22\x22` input yields one empty field. -/
def goSplitChar (sep : Char) : List Char → List String
  | [] => [""]
  | c :: cs =>
    if c = sep then
      "" :: goSplitChar sep cs
    else
      match goSplitChar sep cs with
      | [] => [String.mk [c]]
      | s :: rest => String.mk (c :: s.data) :: rest

/-- Decimal digit to character (0-9 only, as produced by `natToDec`). -/
def decDigit (n : Nat) : Char :=
  match n with
  | 0 => '0' | 1 => '1' | 2 => '2' | 3 => '3' | 4 => '4'
  | 5 => '5' | 6 => '6' | 7 => '7' | 8 => '8' | _ => '9'

/-- Decimal digits of a natural number, most significant first; fuel-driven
so that the definition is structural (the fuel argument strictly bounds the
number of divisions by 10). -/
def natDecAux : Nat → Nat → List Char
  | 0, _ => []
  | _ + 1, 0 => []
  | fuel + 1, n => natDecAux fuel (n / 10) ++ [decDigit (n % 10)]

/-- Decimal rendering of a natural number, as Go's `%d` verb prints it. -/
def natToDec (n : Nat) : String :=
  if n = 0 then "0" else String.mk (natDecAux (n + 1) n)

/-- Escaping of one character as in a Go double-quoted string literal
(the cases relevant to configuration text). -/
def goQuoteChar (c : Char) : List Char :=
  if c = '"' then ['\\', '"']
  else if c = '\\' then ['\\', '\\']
  else if c = '\n' then ['\\', 'n']
  else if c = '\t' then ['\\', 't']
  else if c = '\r' then ['\\', 'r']
  else [c]

/-- Model of Go's `%#v` / `%q` formatting of a string: the text wrapped in
double quotes with in-string escaping. -/
def goQuote (s : String) : String :=
  String.mk ('"' :: (s.data.map goQuoteChar).flatten ++ ['"'])

/-- Numeric value of a list of decimal digit characters. -/
def digitsVal (ds : List Char) : Nat :=
  ds.foldl (fun a d => 10 * a + (d.toNat - 48)) 0

/-- Model of Go `strconv.Atoi` on a 64-bit platform: optional sign, decimal
digits; a non-numeric argument fails with the `invalid syntax` message and a
value outside the `int64` range fails with the `value out of range` message
(both message texts are part of the repository's tested contract). -/
def goAtoi (s : String) : Except String Int :=
  match s.data with
  | [] => .error ("strconv.Atoi: parsing " ++ (goQuote s ++ ": invalid syntax"))
  | c :: rest =>
    match (if c = '-' then (true, rest)
           else if c = '+' then (false, rest)
           else (false, c :: rest) : Bool × List Char) with
    | (neg, ds) =>
      if ds = [] then
        .error ("strconv.Atoi: parsing " ++ (goQuote s ++ ": invalid syntax"))
      else if ds.any (fun d => !d.isDigit) then
        .error ("strconv.Atoi: parsing " ++ (goQuote s ++ ": invalid syntax"))
      else
        if (if neg then -(digitsVal ds : Int) else (digitsVal ds : Int)) <
              -9223372036854775808 ∨
            9223372036854775807 <
              (if neg then -(digitsVal ds : Int) else (digitsVal ds : Int)) then
          .error ("strconv.Atoi: parsing " ++ (goQuote s ++ ": value out of range"))
        else
          .ok (if neg then -(digitsVal ds : Int) else (digitsVal ds : Int))

/-- Forward mirrors the Go struct `Forward` (a `LocalForward`/`RemoteForward`
entry). -/
structure Forward where
  InHost : String
  InPort : Int
  OutHost : String
  OutPort : Int
deriving DecidableEq

/-- DynamicForward mirrors the Go struct `DynamicForward`. -/
structure DynamicForward where
  Host : String
  Port : Int
deriving DecidableEq

/-- Backtracking search used for the regex fragment `(\S+):` inside the two
forward patterns: within the non-space run `r` (followed by `tail`), try the
colon positions from `n` down to `1` (Perl greedy order: the longest `\S+`
candidate first), handing the captured group and the remaining characters to
the continuation `k`; the first success wins. -/
def colonSearch (r tail : List Char) (k : List Char → List Char → Option α) :
    Nat → Option α
  | 0 => none
  | i + 1 =>
    match (if r.get? (i + 1) = some ':' then
             k (r.take (i + 1)) (r.drop (i + 2) ++ tail)
           else none) with
    | some v => some v
    | none => colonSearch r tail k i

/-- Tail of the forward pattern after the optional bind-host group:
`(\d+)\s+(\S+):(\d+)`, matched at the head of `cs` with capture `g1` already
chosen.  When `anchored` is set the match must consume the whole input (used
for the specification's anchored reading of the grammar). -/
def fwdTail (anchored : Bool) (g1 cs : List Char) :
    Option (String × String × String × String) :=
  let d1 := cs.takeWhile Char.isDigit
  let cs1 := cs.dropWhile Char.isDigit
  if d1 = [] then none
  else
    let sp := cs1.takeWhile isGoSpace
    let cs2 := cs1.dropWhile isGoSpace
    if sp = [] then none
    else
      let r := cs2.takeWhile (fun c => !isGoSpace c)
      let cs3 := cs2.dropWhile (fun c => !isGoSpace c)
      colonSearch r cs3
        (fun w rest2 =>
          let d2 := rest2.takeWhile Char.isDigit
          let rest3 := rest2.dropWhile Char.isDigit
          if d2 = [] then none
          else if anchored ∧ rest3 ≠ [] then none
          else some (String.mk g1, String.mk d1, String.mk w, String.mk d2))
        (r.length - 1)

/-- Match of the full forward pattern `((\S+):)?(\d+)\s+(\S+):(\d+)` at the
head of `cs`: in Perl preference order the optional group is tried first
(over all greedy `\S+` splits), then the group-absent alternative. -/
def fwdAt (anchored : Bool) (cs : List Char) :
    Option (String × String × String × String) :=
  let r0 := cs.takeWhile (fun c => !isGoSpace c)
  let rest0 := cs.dropWhile (fun c => !isGoSpace c)
  match colonSearch r0 rest0 (fun w rest2 => fwdTail anchored w rest2)
      (r0.length - 1) with
  | some v => some v
  | none => fwdTail anchored [] cs

/-- Leftmost unanchored match of the forward pattern, as
`regexp.FindStringSubmatch` computes it: the earliest start position at
which `fwdAt` succeeds. -/
def fwdSearch : List Char → Option (String × String × String × String)
  | [] => none
  | c :: cs =>
    match fwdAt false (c :: cs) with
    | some v => some v
    | none => fwdSearch cs

/-- NewForward embeds the Go function `NewForward`: find the leftmost
substring matching `((\S+):)?(\d+)\s+(\S+):(\d+)`; no match yields the
`Invalid forward` error with the input Go-quoted; otherwise the two port
captures go through `strconv.Atoi` and any `Atoi` error is returned
verbatim. -/
def NewForward (f : String) : Except String Forward :=
  match fwdSearch f.data with
  | none => .error ("Invalid forward: " ++ goQuote f)
  | some (m2, m3, m4, m5) =>
    match goAtoi m3 with
    | .error e => .error e
    | .ok inPort =>
      match goAtoi m5 with
      | .error e => .error e
      | .ok outPort => .ok ⟨m2, inPort, m4, outPort⟩

/-- Anchored reading of the forward grammar `[bindhost:]port SP host:hostport`,
following the specification's words (the whole value, with no leading or
trailing extra text, must conform); used to compare the spec's claim with
the code's unanchored behaviour. -/
def forwardGrammar (f : String) : Option (String × String × String × String) :=
  fwdAt true f.data

/-- Match of the dynamic-forward pattern tail `(\d+)` with capture `g1`
already chosen. -/
def dynTail (anchored : Bool) (g1 cs : List Char) : Option (String × String) :=
  let d1 := cs.takeWhile Char.isDigit
  let rest := cs.dropWhile Char.isDigit
  if d1 = [] then none
  else if anchored ∧ rest ≠ [] then none
  else some (String.mk g1, String.mk d1)

/-- Match of the full dynamic-forward pattern `((\S+):)?(\d+)` at the head
of `cs`. -/
def dynAt (anchored : Bool) (cs : List Char) : Option (String × String) :=
  let r0 := cs.takeWhile (fun c => !isGoSpace c)
  let rest0 := cs.dropWhile (fun c => !isGoSpace c)
  match colonSearch r0 rest0 (fun w rest2 => dynTail anchored w rest2)
      (r0.length - 1) with
  | some v => some v
  | none => dynTail anchored [] cs

/-- Leftmost unanchored match of the dynamic-forward pattern. -/
def dynSearch : List Char → Option (String × String)
  | [] => none
  | c :: cs =>
    match dynAt false (c :: cs) with
    | some v => some v
    | none => dynSearch cs

/-- NewDynamicForward embeds the Go function `NewDynamicForward`. -/
def NewDynamicForward (f : String) : Except String DynamicForward :=
  match dynSearch f.data with
  | none => .error ("Invalid dynamic forward: " ++ goQuote f)
  | some (m2, m3) =>
    match goAtoi m3 with
    | .error e => .error e
    | .ok port => .ok ⟨m2, port⟩

/-- SSHHost mirrors the Go struct `SSHHost` of `parser.go`: one `Host` block.
The Go zero values (empty slice, empty string, `0`) are the unset markers
used by the merge phase. -/
structure SSHHost where
  Host : List String
  HostName : String
  User : String
  Port : Int
  ProxyCommand : String
  HostKeyAlgorithms : String
  IdentityFile : String
  LocalForwards : List Forward
  RemoteForwards : List Forward
  DynamicForwards : List DynamicForward
  Ciphers : List String
  MACs : List String
deriving DecidableEq

/-- The record a `Host` keyword token creates in `parse`:
`&SSHHost{Host: []string{}, Port: 0}` (all other fields are Go zero
values). -/
def emptySSHHost : SSHHost :=
  ⟨[], "", "", 0, "", "", "", [], [], [], [], []⟩

/-- containsWildcard embeds the Go function of the same name: some pattern
of the record contains a `*`. -/
def containsWildcard (host : SSHHost) : Bool :=
  host.Host.any (fun h => h.data.contains '*')

/-- Regex atoms arising from `strings.Replace(h, "*", ".*", -1)`: literal
characters, `.` (any character) and `.*` (any sequence).  This models Go's
regexp for patterns built from characters that are not regex metacharacters
other than `.` (the alphabet of ssh host patterns); every `*` of the glob
becomes the any-sequence atom and every `.` the any-character atom. -/
inductive RTok where
  | lit (c : Char)
  | anyc
  | star
deriving DecidableEq

/-- Translation of a host pattern to regex atoms, following the `*` to `.*`
replacement performed by `matchWildcardHost`. -/
def globToRegex : List Char → List RTok
  | [] => []
  | '*' :: rest => .star :: globToRegex rest
  | '.' :: rest => .anyc :: globToRegex rest
  | c :: rest => .lit c :: globToRegex rest

/-- Whole-string regex match: the atom list consumes exactly the character
list.  `star` consumes any suffix split (via `List.tails`). -/
def reExact : List RTok → List Char → Bool
  | [], cs => cs.isEmpty
  | .lit c :: ts, cs =>
    match cs with
    | [] => false
    | d :: cs' => if c = d then reExact ts cs' else false
  | .anyc :: ts, cs =>
    match cs with
    | [] => false
    | _ :: cs' => reExact ts cs'
  | .star :: ts, cs => cs.tails.any (fun s => reExact ts s)

/-- Prefix regex match: the atom list consumes some prefix of the character
list (trailing characters are ignored). -/
def reAccept : List RTok → List Char → Bool
  | [], _ => true
  | .lit c :: ts, cs =>
    match cs with
    | [] => false
    | d :: cs' => if c = d then reAccept ts cs' else false
  | .anyc :: ts, cs =>
    match cs with
    | [] => false
    | _ :: cs' => reAccept ts cs'
  | .star :: ts, cs => cs.tails.any (fun s => reAccept ts s)

/-- Unanchored containment match, as Go `regexp.MatchString` reports it:
the pattern matches starting at some position of the string. -/
def reFind (ts : List RTok) (cs : List Char) : Bool :=
  cs.tails.any (fun s => reAccept ts s)

/-- matchWildcardHost embeds the Go function of the same name: each pattern
of the wildcard record, with `*` replaced by `.*`, is tested with
`regexp.MatchString` (unanchored) against each pattern of the literal
record; the first hit returns true. -/
def matchWildcardHost (wildcardHost host : SSHHost) : Bool :=
  wildcardHost.Host.any (fun h =>
    host.Host.any (fun hh => reFind (globToRegex h.data) hh.data))

/-- Specification reading of the wildcard match, following the spec's words:
the translated pattern is anchored to the full string and must match one of
the literal record's patterns in its entirety. -/
def matchWildcardHostSpec (wildcardHost host : SSHHost) : Bool :=
  wildcardHost.Host.any (fun h =>
    host.Host.any (fun hh => reExact (globToRegex h.data) hh.data))

/-- Per-field behaviour of the Go `setFieldByName` for a string field: the
guard `currentValue != "" && currentValue != 0` skips the write exactly when
the target's value is non-empty (the `!= 0` conjunct is always true for a
string), and the written value `fmt.Sprintf("%v", value)` is the source
string itself. -/
def setFieldString (cur src : String) : String :=
  if cur = "" then src else cur

/-- Per-field behaviour of the Go `setFieldByName` for an int field: the
guard skips the write exactly when the target's value is non-zero (the
`!= ""` conjunct is always true for an int), and
`strconv.Atoi(fmt.Sprintf("%v", value))` is the identity on ints. -/
def setFieldInt (cur src : Int) : Int :=
  if cur = 0 then src else cur

/-- mergeSSHConfigs embeds the Go function of the same name together with
`setFieldByName`.  The Go loop visits every field of the source record (the
`value == reflect.Zero(value.Type())` comparison compares `reflect.Value`
headers, which are never equal because `reflect.Zero` allocates fresh
storage, so no field is skipped) and calls `setFieldByName`; for slice-kind
fields (`Host` and the five list fields) the guard
`currentValue != "" && currentValue != 0` is true (interface values of
distinct dynamic types are unequal), so `setFieldByName` returns without
writing and the target's slices are left untouched. -/
def mergeSSHConfigs (source target : SSHHost) : SSHHost where
  Host := target.Host
  HostName := setFieldString target.HostName source.HostName
  User := setFieldString target.User source.User
  Port := setFieldInt target.Port source.Port
  ProxyCommand := setFieldString target.ProxyCommand source.ProxyCommand
  HostKeyAlgorithms := setFieldString target.HostKeyAlgorithms source.HostKeyAlgorithms
  IdentityFile := setFieldString target.IdentityFile source.IdentityFile
  LocalForwards := target.LocalForwards
  RemoteForwards := target.RemoteForwards
  DynamicForwards := target.DynamicForwards
  Ciphers := target.Ciphers
  MACs := target.MACs

/-- Inner loop of `applyWildcardRules` for one wildcard record: literal
records are visited in order; a matching one is merged (in place in Go), and
the first non-matching one stops the scan (`break`), leaving it and all
later records untouched. -/
def applyWildcardStep (wildcardHost : SSHHost) : List SSHHost → List SSHHost
  | [] => []
  | host :: rest =>
    if matchWildcardHost wildcardHost host then
      mergeSSHConfigs wildcardHost host :: applyWildcardStep wildcardHost rest
    else
      host :: rest

/-- applyWildcardRules embeds the Go function of the same name: wildcard
records are applied in declaration order, each scanning the (already
updated) literal list with the `break`-on-first-mismatch inner loop. -/
def applyWildcardRules (wildcardHosts sshConfigs : List SSHHost) : List SSHHost :=
  wildcardHosts.foldl (fun cfgs w => applyWildcardStep w cfgs) sshConfigs

/-- assertDefaultPort embeds the Go function of the same name: any record
whose `Port` is still `0` is set to `22`. -/
def assertDefaultPort (hosts : List SSHHost) : List SSHHost :=
  hosts.map (fun host => if host.Port = 0 then { host with Port := 22 } else host)

/-- Token kinds of the lexer stream.  The keyword kinds and the generic
`itemValue`, `itemHostValue`, `itemError` and `itemEOF` kinds are the ones
`parse` switches on; `itemProxyJump` and `itemIdentityAgent` are produced by
the lexer (per the spec's keyword list) but have no case in `parse`. -/
inductive itemType where
  | itemError
  | itemEOF
  | itemHost
  | itemHostValue
  | itemValue
  | itemHostName
  | itemUser
  | itemPort
  | itemProxyCommand
  | itemProxyJump
  | itemHostKeyAlgorithms
  | itemIdentityFile
  | itemIdentityAgent
  | itemCiphers
  | itemMACs
  | itemLocalForward
  | itemRemoteForward
  | itemDynamicForward
  | itemInclude
deriving DecidableEq

/-- One lexer token: kind, text and byte position (used in error
messages). -/
structure item where
  typ : itemType
  val : String
  pos : Nat
deriving DecidableEq

/-- Keyword table of the lexer (case-sensitive, per the spec). -/
def keywordItem (w : String) : Option itemType :=
  if w = "Host" then some .itemHost
  else if w = "HostName" then some .itemHostName
  else if w = "User" then some .itemUser
  else if w = "Port" then some .itemPort
  else if w = "ProxyCommand" then some .itemProxyCommand
  else if w = "ProxyJump" then some .itemProxyJump
  else if w = "HostKeyAlgorithms" then some .itemHostKeyAlgorithms
  else if w = "IdentityFile" then some .itemIdentityFile
  else if w = "IdentityAgent" then some .itemIdentityAgent
  else if w = "Ciphers" then some .itemCiphers
  else if w = "MACs" then some .itemMACs
  else if w = "LocalForward" then some .itemLocalForward
  else if w = "RemoteForward" then some .itemRemoteForward
  else if w = "DynamicForward" then some .itemDynamicForward
  else if w = "Include" then some .itemInclude
  else none

/-- Characters that end a directive word. -/
def isWordEnd (c : Char) : Bool :=
  c = ' ' || c = '\t' || c = '\n' || c = '\r'

/-- Trailing whitespace (including the `\r` of a CRLF line ending) removed
from a value span. -/
def trimTrailing (cs : List Char) : List Char :=
  (cs.reverse.dropWhile (fun c => c = ' ' || c = '\t' || c = '\r')).reverse

/-- Modelled from the spec: the lexer (`lex` / `nextItem`) is not among the
source files available for this repository (only its callers in `parse`
are), so this function produces the token stream the spec describes in
section 4.1: blank lines, leading whitespace and `#` comment lines are
skipped; a recognized keyword yields a keyword token (carrying its byte
position) followed by a value token holding the rest of the line with
surrounding whitespace trimmed (`itemHostValue` after `Host`, `itemValue`
otherwise); an unrecognized leading word makes the whole line ignored; the
exhausted stream yields `itemEOF`.  CRLF input is handled by treating the
`\r` as trailing whitespace.  The fuel argument (number of characters plus
one) strictly bounds the iteration count, each step consuming at least one
character. -/
def lexGo : Nat → List Char → Nat → List item
  | 0, _, pos => [⟨.itemEOF, "", pos⟩]
  | _ + 1, [], pos => [⟨.itemEOF, "", pos⟩]
  | fuel + 1, c :: cs, pos =>
    if c = ' ' || c = '\t' || c = '\n' || c = '\r' then
      lexGo fuel cs (pos + 1)
    else if c = '#' then
      lexGo fuel ((c :: cs).dropWhile (fun d => !(d = '\n')))
        (pos + ((c :: cs).takeWhile (fun d => !(d = '\n'))).length)
    else
      let w := (c :: cs).takeWhile (fun d => !isWordEnd d)
      let afterW := (c :: cs).dropWhile (fun d => !isWordEnd d)
      match keywordItem (String.mk w) with
      | none =>
        lexGo fuel (afterW.dropWhile (fun d => !(d = '\n')))
          (pos + w.length + (afterW.takeWhile (fun d => !(d = '\n'))).length)
      | some t =>
        let sp := afterW.takeWhile (fun d => d = ' ' || d = '\t')
        let afterSp := afterW.dropWhile (fun d => d = ' ' || d = '\t')
        let lineRaw := afterSp.takeWhile (fun d => !(d = '\n'))
        let rest := afterSp.dropWhile (fun d => !(d = '\n'))
        let vty : itemType := if t = .itemHost then .itemHostValue else .itemValue
        ⟨t, String.mk w, pos⟩ ::
          ⟨vty, String.mk (trimTrailing lineRaw), pos + w.length + sp.length⟩ ::
            lexGo fuel rest (pos + w.length + sp.length + lineRaw.length)

/-- Modelled from the spec: full token stream of an input text (see
`lexGo`). -/
def lexAll (input : String) : List item :=
  lexGo (input.data.length + 1) input.data 0

/-- Pair of finalized lists maintained by the parse loop: the literal
records (`sshConfigs`) and the wildcard records (`wildcardHosts`). -/
def finalizeHost (cur : Option SSHHost) (cfgs wilds : List SSHHost) :
    List SSHHost × List SSHHost :=
  match cur with
  | none => (cfgs, wilds)
  | some h =>
    if containsWildcard h then (cfgs, wilds ++ [h]) else (cfgs ++ [h], wilds)

/-- Guard checks at the top of each iteration of the Go parse loop (lines
148 to 154 of `parser.go`): a token other than `itemEOF`/`itemHost`/
`itemInclude` while no host record is open yields the positional
config-variable-before-Host error; an `itemInclude` while a record is open
yields the include-in-host-block error; otherwise no error. -/
def parseGuard (path : String) (tok : item) (cur : Option SSHHost) :
    Option String :=
  if cur = none ∧ tok.typ ≠ .itemEOF ∧ tok.typ ≠ .itemHost ∧
      tok.typ ≠ .itemInclude then
    some (path ++ ":" ++ natToDec tok.pos ++
      ": config variable before Host variable")
  else if cur ≠ none ∧ tok.typ = .itemInclude then
    some "include not allowed in Host block"
  else
    none

/-- parseLoop embeds the token-consuming loop of the Go `parse` function.

The include-resolution block (home-directory expansion, globbing, reading
and recursively parsing each matched file, appending its records) is
abstracted as the `inc` parameter, which receives the current path and the
include value and returns either the included records or the first error —
this is the external file-reading collaborator of the spec.

State per iteration: the literal records so far, the wildcard records so
far, and the currently open host record (`nil` before the first `Host`).
The guards before the switch are the Go ones: a token other than
`itemEOF`/`itemHost`/`itemInclude` with no open record is the
config-variable-before-Host error (path and byte position); `itemInclude`
with an open record is the include-in-host-block error.  The value-consuming
cases pull the next token and fail with that token's text when it is not an
`itemValue`; the lexer produces `itemEOF` forever once exhausted, so pulling
from an empty stream behaves as pulling an `itemEOF` with empty text.  The
arms returning the `nil host` error are unreachable: the first guard has
already returned for every token kind that reaches them with no open
record. -/
def parseLoop (inc : String → String → Except String (List SSHHost))
    (path : String) :
    List item → List SSHHost → List SSHHost → Option SSHHost →
      Except String (List SSHHost × List SSHHost)
  | [], cfgs, wilds, cur => .ok (finalizeHost cur cfgs wilds)
  | tok :: rest, cfgs, wilds, cur =>
    match parseGuard path tok cur with
    | some e => .error e
    | none =>
      match tok.typ with
        | .itemHost =>
          let fin := finalizeHost cur cfgs wilds
          parseLoop inc path rest fin.1 fin.2 (some emptySSHHost)
        | .itemHostValue =>
          match cur with
          | some h =>
            parseLoop inc path rest cfgs wilds
              (some { h with Host := goSplitChar ' ' tok.val.data })
          | none => .error "nil host"
        | .itemHostName =>
          match rest with
          | next :: rest2 =>
            if next.typ ≠ .itemValue then .error next.val
            else
              match cur with
              | some h =>
                parseLoop inc path rest2 cfgs wilds
                  (some { h with HostName := next.val })
              | none => .error "nil host"
          | [] => .error ""
        | .itemUser =>
          match rest with
          | next :: rest2 =>
            if next.typ ≠ .itemValue then .error next.val
            else
              match cur with
              | some h =>
                parseLoop inc path rest2 cfgs wilds (some { h with User := next.val })
              | none => .error "nil host"
          | [] => .error ""
        | .itemPort =>
          match rest with
          | next :: rest2 =>
            if next.typ ≠ .itemValue then .error next.val
            else
              match goAtoi next.val with
              | .error e => .error e
              | .ok port =>
                match cur with
                | some h =>
                  parseLoop inc path rest2 cfgs wilds (some { h with Port := port })
                | none => .error "nil host"
          | [] => .error ""
        | .itemProxyCommand =>
          match rest with
          | next :: rest2 =>
            if next.typ ≠ .itemValue then .error next.val
            else
              match cur with
              | some h =>
                parseLoop inc path rest2 cfgs wilds
                  (some { h with ProxyCommand := next.val })
              | none => .error "nil host"
          | [] => .error ""
        | .itemHostKeyAlgorithms =>
          match rest with
          | next :: rest2 =>
            if next.typ ≠ .itemValue then .error next.val
            else
              match cur with
              | some h =>
                parseLoop inc path rest2 cfgs wilds
                  (some { h with HostKeyAlgorithms := next.val })
              | none => .error "nil host"
          | [] => .error ""
        | .itemIdentityFile =>
          match rest with
          | next :: rest2 =>
            if next.typ ≠ .itemValue then .error next.val
            else
              match cur with
              | some h =>
                parseLoop inc path rest2 cfgs wilds
                  (some { h with IdentityFile := next.val })
              | none => .error "nil host"
          | [] => .error ""
        | .itemLocalForward =>
          match rest with
          | next :: rest2 =>
            match NewForward next.val with
            | .error e => .error e
            | .ok f =>
              match cur with
              | some h =>
                parseLoop inc path rest2 cfgs wilds
                  (some { h with LocalForwards := h.LocalForwards ++ [f] })
              | none => .error "nil host"
          | [] =>
            match NewForward "" with
            | .error e => .error e
            | .ok _ => .error ""
        | .itemRemoteForward =>
          match rest with
          | next :: rest2 =>
            match NewForward next.val with
            | .error e => .error e
            | .ok f =>
              match cur with
              | some h =>
                parseLoop inc path rest2 cfgs wilds
                  (some { h with RemoteForwards := h.RemoteForwards ++ [f] })
              | none => .error "nil host"
          | [] =>
            match NewForward "" with
            | .error e => .error e
            | .ok _ => .error ""
        | .itemDynamicForward =>
          match rest with
          | next :: rest2 =>
            match NewDynamicForward next.val with
            | .error e => .error e
            | .ok f =>
              match cur with
              | some h =>
                parseLoop inc path rest2 cfgs wilds
                  (some { h with DynamicForwards := h.DynamicForwards ++ [f] })
              | none => .error "nil host"
          | [] =>
            match NewDynamicForward "" with
            | .error e => .error e
            | .ok _ => .error ""
        | .itemInclude =>
          match rest with
          | next :: rest2 =>
            if next.typ ≠ .itemValue then .error next.val
            else
              match inc path next.val with
              | .error e => .error e
              | .ok included => parseLoop inc path rest2 (cfgs ++ included) wilds cur
          | [] => .error ""
        | .itemCiphers =>
          match rest with
          | next :: rest2 =>
            if next.typ ≠ .itemValue then .error next.val
            else
              match cur with
              | some h =>
                parseLoop inc path rest2 cfgs wilds
                  (some { h with Ciphers := goSplitChar ',' next.val.data })
              | none => .error "nil host"
          | [] => .error ""
        | .itemMACs =>
          match rest with
          | next :: rest2 =>
            if next.typ ≠ .itemValue then .error next.val
            else
              match cur with
              | some h =>
                parseLoop inc path rest2 cfgs wilds
                  (some { h with MACs := goSplitChar ',' next.val.data })
              | none => .error "nil host"
          | [] => .error ""
        | .itemError => .error (tok.val ++ " at pos " ++ natToDec tok.pos)
        | .itemEOF => .ok (finalizeHost cur cfgs wilds)
        | _ => parseLoop inc path rest cfgs wilds cur

/-- parse embeds the Go `parse(input, path)` function: lex the input, run
the token loop, then apply the wildcard records (when any) and the default
port.  The result mirrors Go's `([]*SSHHost, error)` pair: every error
return in the Go function is `nil, err`, embedded as `(none, some err)`;
success is `(some hosts, none)`. -/
def parse (inc : String → String → Except String (List SSHHost))
    (input path : String) : Option (List SSHHost) × Option String :=
  match parseLoop inc path (lexAll input) [] [] none with
  | .error e => (none, some e)
  | .ok (cfgs, wilds) =>
    (some (assertDefaultPort
      (if wilds.length > 0 then applyWildcardRules wilds cfgs else cfgs)), none)

/-- Include collaborator that finds no files, for concrete runs that use no
`Include` directive (the message mirrors the Go zero-match error). -/
def noIncludeFiles (_path value : String) : Except String (List SSHHost) :=
  .error ("no files found for include path " ++ value)

/-- Appending strings appends their character data. -/
theorem goData_append (a b : String) : (a ++ b).data = a.data ++ b.data := by
  cases a
  cases b
  rfl

/-- String append is associative. -/
theorem goAppend_assoc (a b c : String) : a ++ b ++ c = a ++ (b ++ c) := by
  apply String.ext
  simp [goData_append]

/-- Every error of the embedded `strconv.Atoi` carries the
`strconv.Atoi: parsing` prefix. -/
theorem goAtoi_error_shape (s e : String) (h : goAtoi s = .error e) :
    ∃ t, e = "strconv.Atoi: parsing " ++ t := by
  unfold goAtoi at h
  split at h
  · injection h with h'
    exact ⟨_, h'.symm⟩
  · split at h
    split_ifs at h <;> (injection h with h2; exact ⟨_, h2.symm⟩)

/-- Two appends with distinct nonempty left parts whose first characters
differ are distinct strings. -/
theorem goAppend_ne_of_head (a b x y : String) (c₁ c₂ : Char)
    (h₁ : a.data.head? = some c₁) (h₂ : b.data.head? = some c₂)
    (hne : c₁ ≠ c₂) : a ++ x ≠ b ++ y := by
  intro h
  have hd : (a ++ x).data = (b ++ y).data := congrArg String.data h
  rw [goData_append, goData_append] at hd
  have ha : ∃ us, a.data = c₁ :: us := by
    cases hx : a.data with
    | nil => rw [hx] at h₁; cases h₁
    | cons u us =>
      rw [hx] at h₁
      simp only [List.head?_cons, Option.some.injEq] at h₁
      exact ⟨us, by rw [h₁]⟩
  have hb : ∃ vs, b.data = c₂ :: vs := by
    cases hx : b.data with
    | nil => rw [hx] at h₂; cases h₂
    | cons v vs =>
      rw [hx] at h₂
      simp only [List.head?_cons, Option.some.injEq] at h₂
      exact ⟨vs, by rw [h₂]⟩
  obtain ⟨us, ha⟩ := ha
  obtain ⟨vs, hb⟩ := hb
  rw [ha, hb] at hd
  simp only [List.cons_append, List.cons.injEq] at hd
  exact hne hd.1

/-- The `Invalid forward` message never coincides with a `strconv.Atoi`
message. -/
theorem invalidForward_ne_atoi (x t : String) :
    "Invalid forward: " ++ x ≠ "strconv.Atoi: parsing " ++ t := by
  exact goAppend_ne_of_head _ _ _ _ 'I' 's' rfl rfl (by decide)

/-- An exact regex match extends to a prefix match of any longer string. -/
theorem reAccept_of_reExact (ts : List RTok) :
    ∀ mid post : List Char, reExact ts mid = true →
      reAccept ts (mid ++ post) = true := by
  induction ts with
  | nil => intro mid post _; rfl
  | cons t ts ih =>
    intro mid post hex
    cases t with
    | lit c =>
      cases mid with
      | nil => simp [reExact] at hex
      | cons d mid' =>
        rw [reExact] at hex
        split_ifs at hex with hc
        subst hc
        simpa [reAccept] using ih mid' post hex
    | anyc =>
      cases mid with
      | nil => simp [reExact] at hex
      | cons d mid' =>
        rw [reExact] at hex
        simpa [reAccept] using ih mid' post hex
    | star =>
      rw [reExact, List.any_eq_true] at hex
      obtain ⟨s, hs, hex⟩ := hex
      obtain ⟨pre, hpre⟩ := (List.mem_tails _ _).mp hs
      rw [reAccept, List.any_eq_true]
      refine ⟨s ++ post, ?_, ih s post hex⟩
      apply (List.mem_tails _ _).mpr
      exact ⟨pre, by rw [← List.append_assoc, hpre]⟩

/-- A prefix match is exactly an exact match on some leading segment. -/
theorem reAccept_iff (ts : List RTok) :
    ∀ cs : List Char, reAccept ts cs = true ↔
      ∃ mid post, cs = mid ++ post ∧ reExact ts mid = true := by
  induction ts with
  | nil =>
    intro cs
    constructor
    · intro _; exact ⟨[], cs, rfl, rfl⟩
    · intro _; rfl
  | cons t ts ih =>
    intro cs
    constructor
    · intro hacc
      cases t with
      | lit c =>
        cases cs with
        | nil => simp [reAccept] at hacc
        | cons d cs' =>
          rw [reAccept] at hacc
          split_ifs at hacc with hc
          subst hc
          obtain ⟨mid, post, hsplit, hex⟩ := (ih cs').mp hacc
          exact ⟨c :: mid, post, by simp [hsplit], by simp [reExact, hex]⟩
      | anyc =>
        cases cs with
        | nil => simp [reAccept] at hacc
        | cons d cs' =>
          rw [reAccept] at hacc
          obtain ⟨mid, post, hsplit, hex⟩ := (ih cs').mp hacc
          exact ⟨d :: mid, post, by simp [hsplit], by simp [reExact, hex]⟩
      | star =>
        rw [reAccept, List.any_eq_true] at hacc
        obtain ⟨s, hs, hacc⟩ := hacc
        obtain ⟨pre, hpre⟩ := (List.mem_tails _ _).mp hs
        obtain ⟨mid, post, hsplit, hex⟩ := (ih s).mp hacc
        refine ⟨pre ++ mid, post, ?_, ?_⟩
        · rw [← hpre, hsplit, List.append_assoc]
        · rw [reExact, List.any_eq_true]
          refine ⟨mid, ?_, hex⟩
          exact (List.mem_tails _ _).mpr ⟨pre, rfl⟩
    · rintro ⟨mid, post, rfl, hex⟩
      exact reAccept_of_reExact _ mid post hex

/-- Unanchored containment is exactly an exact match on some middle
segment. -/
theorem reFind_iff (ts : List RTok) (cs : List Char) :
    reFind ts cs = true ↔
      ∃ pre mid post, cs = pre ++ (mid ++ post) ∧
        reExact ts mid = true := by
  constructor
  · intro hf
    rw [reFind, List.any_eq_true] at hf
    obtain ⟨s, hs, hacc⟩ := hf
    obtain ⟨pre, hpre⟩ := (List.mem_tails _ _).mp hs
    obtain ⟨mid, post, hsplit, hex⟩ := (reAccept_iff ts s).mp hacc
    exact ⟨pre, mid, post, by rw [← hpre, hsplit], hex⟩
  · rintro ⟨pre, mid, post, rfl, hex⟩
    rw [reFind, List.any_eq_true]
    refine ⟨mid ++ post, ?_, reAccept_of_reExact _ mid post hex⟩
    exact (List.mem_tails _ _).mpr ⟨pre, rfl⟩

/-- The slice-valued components of a host record (the pattern list and the
five list fields), which `setFieldByName` never writes. -/
def listFields (h : SSHHost) :
    List String × List Forward × List Forward × List DynamicForward ×
      List String × List String :=
  (h.Host, h.LocalForwards, h.RemoteForwards, h.DynamicForwards,
    h.Ciphers, h.MACs)

/-- One wildcard pass leaves every record's slice-valued fields
unchanged. -/
theorem applyWildcardStep_listFields (w : SSHHost) :
    ∀ cfgs : List SSHHost,
      (applyWildcardStep w cfgs).map listFields = cfgs.map listFields := by
  intro cfgs
  induction cfgs with
  | nil => rfl
  | cons h t ih =>
    rw [applyWildcardStep]
    split_ifs with hm
    · simpa [mergeSSHConfigs, listFields] using ih
    · rfl

/-- The whole wildcard phase leaves every record's slice-valued fields
unchanged. -/
theorem applyWildcardRules_listFields (ws : List SSHHost) :
    ∀ cfgs : List SSHHost,
      (applyWildcardRules ws cfgs).map listFields = cfgs.map listFields := by
  induction ws with
  | nil => intro cfgs; rfl
  | cons w ws ih =>
    intro cfgs
    have hstep : applyWildcardRules (w :: ws) cfgs =
        applyWildcardRules ws (applyWildcardStep w cfgs) := rfl
    rw [hstep, ih, applyWildcardStep_listFields]

/-- Every record surviving `assertDefaultPort` has a non-zero port. -/
theorem assertDefaultPort_port_ne_zero (l : List SSHHost) (h : SSHHost)
    (hm : h ∈ assertDefaultPort l) : h.Port ≠ 0 := by
  rw [assertDefaultPort, List.mem_map] at hm
  obtain ⟨a, _, rfl⟩ := hm
  by_cases ha : a.Port = 0
  · simp [ha]
  · simp [ha]

/-- Membership of recognized directive keyword tokens other than `Host` and
`Include` (the kinds the guard at the top of the parse loop rejects before
any `Host` block). -/
def isDirectiveItem : itemType → Bool
  | .itemHostName => true
  | .itemUser => true
  | .itemPort => true
  | .itemProxyCommand => true
  | .itemProxyJump => true
  | .itemHostKeyAlgorithms => true
  | .itemIdentityFile => true
  | .itemIdentityAgent => true
  | .itemCiphers => true
  | .itemMACs => true
  | .itemLocalForward => true
  | .itemRemoteForward => true
  | .itemDynamicForward => true
  | _ => false

/-- C1: the claim says every wildcard record is tested against every literal
record (continue semantics); the code instead stops scanning at the first
non-matching literal record (`break`), so a wildcard declared before a
non-matching literal host never reaches a later matching one.  This theorem
evaluates the code at such an input: the wildcard `special*` matches the
literal `special2` but not the literal `other` that precedes it, and the
whole wildcard phase (and the end-to-end parse) leaves `special2`
unmerged. -/
theorem C1_wildcard_break_not_continue :
    matchWildcardHost ⟨["special*"], "", "special", 3333, "", "", "", [], [], [], [], []⟩
        ⟨["special2"], "", "", 0, "", "", "", [], [], [], [], []⟩ = true ∧
    matchWildcardHost ⟨["special*"], "", "special", 3333, "", "", "", [], [], [], [], []⟩
        ⟨["other"], "", "", 0, "", "", "", [], [], [], [], []⟩ = false ∧
    applyWildcardRules
        [⟨["special*"], "", "special", 3333, "", "", "", [], [], [], [], []⟩]
        [⟨["other"], "", "", 0, "", "", "", [], [], [], [], []⟩,
         ⟨["special2"], "", "", 0, "", "", "", [], [], [], [], []⟩] =
      [⟨["other"], "", "", 0, "", "", "", [], [], [], [], []⟩,
       ⟨["special2"], "", "", 0, "", "", "", [], [], [], [], []⟩] ∧
    parse noIncludeFiles
        "Host special*\nUser special\nPort 3333\nHost other\nHost special2" "p" =
      (some [⟨["other"], "", "", 22, "", "", "", [], [], [], [], []⟩,
             ⟨["special2"], "", "", 22, "", "", "", [], [], [], [], []⟩], none) := by
  exact ⟨by decide, by decide, by decide, rfl⟩

/-- C2 counterexample: the claimed anchored (full-string) matching is
refuted by the code: the wildcard pattern `special*` matches the literal
pattern `2special` in the code's unanchored semantics (the translated regex
`special.*` occurs as a substring), while the anchored reading of the spec
rejects it. -/
theorem C2_substring_match_counterexample :
    matchWildcardHost ⟨["special*"], "", "", 0, "", "", "", [], [], [], [], []⟩
        ⟨["2special"], "", "", 0, "", "", "", [], [], [], [], []⟩ = true ∧
    matchWildcardHostSpec ⟨["special*"], "", "", 0, "", "", "", [], [], [], [], []⟩
        ⟨["2special"], "", "", 0, "", "", "", [], [], [], [], []⟩ = false := by
  exact ⟨by decide, by decide⟩

/-- C2 (amended): wildcard-to-literal matching is unanchored: a wildcard
record matches a literal record iff some pattern of the wildcard record,
with each `*` translated to the any-sequence regex atom, matches a
substring (not necessarily the whole) of some pattern of the literal
record. -/
theorem C2_wildcard_match_unanchored (w h : SSHHost) :
    matchWildcardHost w h = true ↔
      ∃ p ∈ w.Host, ∃ q ∈ h.Host, ∃ pre mid post,
        q.data = pre ++ (mid ++ post) ∧
        reExact (globToRegex p.data) mid = true := by
  unfold matchWildcardHost
  simp only [List.any_eq_true, reFind_iff]

/-- C2 witness: the unanchored characterization applied to the
counterexample hosts produces an explicit substring decomposition. -/
theorem C2_wildcard_match_unanchored_witness :
    ∃ p ∈ (["special*"] : List String), ∃ q ∈ (["2special"] : List String),
      ∃ pre mid post,
        q.data = pre ++ (mid ++ post) ∧
        reExact (globToRegex p.data) mid = true :=
  (C2_wildcard_match_unanchored
      ⟨["special*"], "", "", 0, "", "", "", [], [], [], [], []⟩
      ⟨["2special"], "", "", 0, "", "", "", [], [], [], [], []⟩).mp (by decide)

/-- C3 counterexample: the claim says empty list-valued fields of a
matching literal record receive the wildcard record's entries; in the code
`setFieldByName` returns without writing for every slice-kind field, so a
matching literal record with empty `Ciphers`, `MACs` and `LocalForwards`
keeps them empty although the wildcard record's are non-empty. -/
theorem C3_lists_not_appended_counterexample :
    matchWildcardHost
        ⟨["*"], "", "", 0, "", "", "", [⟨"", 1, "h", 2⟩], [], [],
          ["aes256-ctr"], ["hmac-md5"]⟩
        ⟨["empty"], "", "", 0, "", "", "", [], [], [], [], []⟩ = true ∧
    applyWildcardRules
        [⟨["*"], "", "", 0, "", "", "", [⟨"", 1, "h", 2⟩], [], [],
          ["aes256-ctr"], ["hmac-md5"]⟩]
        [⟨["empty"], "", "", 0, "", "", "", [], [], [], [], []⟩] =
      [⟨["empty"], "", "", 0, "", "", "", [], [], [], [], []⟩] := by
  exact ⟨by decide, by decide⟩

/-- C3 (amended): during the wildcard merge the list-valued fields
(`LocalForwards`, `RemoteForwards`, `DynamicForwards`, `Ciphers`, `MACs`,
and also the `Host` pattern list) are never modified, whether empty or not:
both a single merge and the whole wildcard phase preserve them on every
record. -/
theorem C3_wildcard_merge_lists_unchanged :
    (∀ source target : SSHHost,
      listFields (mergeSSHConfigs source target) = listFields target) ∧
    ∀ ws cfgs : List SSHHost,
      (applyWildcardRules ws cfgs).map listFields = cfgs.map listFields := by
  exact ⟨fun _ _ => rfl, fun ws cfgs => applyWildcardRules_listFields ws cfgs⟩

/-- C4 counterexample: `IdentityAgent` and `ProxyJump` directives are not
parsed into output fields: a host block carrying them parses to exactly the
same record list as the block without them (so no output field is populated
from them, refuting the claim that they are parsed into dedicated
fields). -/
theorem C4_identityagent_proxyjump_ignored_counterexample :
    parse noIncludeFiles "Host a\nIdentityAgent agentX\nProxyJump j1,j2\nUser u"
        "p" =
      parse noIncludeFiles "Host a\nUser u" "p" ∧
    parse noIncludeFiles "Host a\nIdentityAgent agentX\nProxyJump j1,j2\nUser u"
        "p" =
      (some [⟨["a"], "", "u", 22, "", "", "", [], [], [], [], []⟩], none) := by
  exact ⟨rfl, rfl⟩

/-- C4 (amended): the host record has no identityAgent or proxyJump fields;
an `IdentityAgent` or `ProxyJump` keyword token and its value token are
consumed by the parse loop's default case with no effect on the state, for
any stream continuation and any open host record. -/
theorem C4_identityagent_proxyjump_skipped
    (inc : String → String → Except String (List SSHHost)) (path : String)
    (ts : List item) (cfgs wilds : List SSHHost) (h : SSHHost)
    (w v : String) (p q : Nat) :
    parseLoop inc path (⟨.itemIdentityAgent, w, p⟩ :: ⟨.itemValue, v, q⟩ :: ts)
        cfgs wilds (some h) =
      parseLoop inc path ts cfgs wilds (some h) ∧
    parseLoop inc path (⟨.itemProxyJump, w, p⟩ :: ⟨.itemValue, v, q⟩ :: ts)
        cfgs wilds (some h) =
      parseLoop inc path ts cfgs wilds (some h) := by
  exact ⟨rfl, rfl⟩

/-- C5: the wildcard merge fills but never overrides scalar fields: for a
matching wildcard/literal pair, each string field of the merged record is
the literal's value when set (non-empty) and the wildcard's value when
unset, and likewise for the integer `Port` with zero as the unset marker;
end to end, `Host *` with `User mark, Port 222` followed by `Host onlyport`
with only `Port 2222` yields `User = mark, Port = 2222`, and followed by
`Host onlyuser` with only `User onlyuser` yields `User = onlyuser,
Port = 222`. -/
theorem C5_wildcard_fill_not_override :
    (∀ w h : SSHHost, matchWildcardHost w h = true →
      ((mergeSSHConfigs w h).HostName =
          (if h.HostName = "" then w.HostName else h.HostName) ∧
        (mergeSSHConfigs w h).User = (if h.User = "" then w.User else h.User) ∧
        (mergeSSHConfigs w h).Port = (if h.Port = 0 then w.Port else h.Port) ∧
        (mergeSSHConfigs w h).ProxyCommand =
          (if h.ProxyCommand = "" then w.ProxyCommand else h.ProxyCommand) ∧
        (mergeSSHConfigs w h).HostKeyAlgorithms =
          (if h.HostKeyAlgorithms = "" then w.HostKeyAlgorithms
           else h.HostKeyAlgorithms) ∧
        (mergeSSHConfigs w h).IdentityFile =
          (if h.IdentityFile = "" then w.IdentityFile else h.IdentityFile))) ∧
    parse noIncludeFiles "Host *\nUser mark\nPort 222\nHost onlyport\nPort 2222"
        "p" =
      (some [⟨["onlyport"], "", "mark", 2222, "", "", "", [], [], [], [], []⟩],
        none) ∧
    parse noIncludeFiles "Host *\nUser mark\nPort 222\nHost onlyuser\nUser onlyuser"
        "p" =
      (some [⟨["onlyuser"], "", "onlyuser", 222, "", "", "", [], [], [], [], []⟩],
        none) := by
  exact ⟨fun w h _ => ⟨rfl, rfl, rfl, rfl, rfl, rfl⟩, rfl, rfl⟩

/-- C5 witness: the fill-not-override characterization applied to the
spec's `onlyport` example pair. -/
theorem C5_wildcard_fill_not_override_witness :
    matchWildcardHost ⟨["*"], "", "mark", 222, "", "", "", [], [], [], [], []⟩
        ⟨["onlyport"], "", "", 2222, "", "", "", [], [], [], [], []⟩ = true ∧
    ((mergeSSHConfigs ⟨["*"], "", "mark", 222, "", "", "", [], [], [], [], []⟩
          ⟨["onlyport"], "", "", 2222, "", "", "", [], [], [], [], []⟩).HostName =
        (if ("" : String) = "" then ("" : String) else "") ∧
      (mergeSSHConfigs ⟨["*"], "", "mark", 222, "", "", "", [], [], [], [], []⟩
          ⟨["onlyport"], "", "", 2222, "", "", "", [], [], [], [], []⟩).User =
        (if ("" : String) = "" then "mark" else "") ∧
      (mergeSSHConfigs ⟨["*"], "", "mark", 222, "", "", "", [], [], [], [], []⟩
          ⟨["onlyport"], "", "", 2222, "", "", "", [], [], [], [], []⟩).Port =
        (if (2222 : Int) = 0 then 222 else 2222) ∧
      (mergeSSHConfigs ⟨["*"], "", "mark", 222, "", "", "", [], [], [], [], []⟩
          ⟨["onlyport"], "", "", 2222, "", "", "", [], [], [], [], []⟩).ProxyCommand =
        (if ("" : String) = "" then ("" : String) else "") ∧
      (mergeSSHConfigs ⟨["*"], "", "mark", 222, "", "", "", [], [], [], [], []⟩
          ⟨["onlyport"], "", "", 2222, "", "", "", [], [], [], [], []⟩).HostKeyAlgorithms =
        (if ("" : String) = "" then ("" : String) else "") ∧
      (mergeSSHConfigs ⟨["*"], "", "mark", 222, "", "", "", [], [], [], [], []⟩
          ⟨["onlyport"], "", "", 2222, "", "", "", [], [], [], [], []⟩).IdentityFile =
        (if ("" : String) = "" then ("" : String) else "")) :=
  ⟨by decide,
    C5_wildcard_fill_not_override.1
      ⟨["*"], "", "mark", 222, "", "", "", [], [], [], [], []⟩
      ⟨["onlyport"], "", "", 2222, "", "", "", [], [], [], [], []⟩ (by decide)⟩

/-- C6 counterexample: the claim says any input deviating from the grammar
`[bindhost:]port SP host:hostport` (for example one with leading or
trailing extra text) fails; the code applies the pattern unanchored, so an
input with surrounding extra text does not conform to the anchored grammar
yet parses successfully from the leftmost matching substring. -/
theorem C6_forward_extra_text_counterexample :
    forwardGrammar "foo 1337 duckduckgo.com:443 bar" = none ∧
    NewForward "foo 1337 duckduckgo.com:443 bar" =
      .ok ⟨"", 1337, "duckduckgo.com", 443⟩ := by
  exact ⟨rfl, rfl⟩

/-- C6 (amended): forward parsing is unanchored: a conforming input yields
the captured fields with the bind host defaulting to the empty string (the
spec's two examples evaluate as stated, and the missing-colon example fails
with the Go-quoted message), and in general the `Invalid forward` error is
produced exactly when no substring of the input matches the pattern —
surrounding extra text around a matching substring does not cause
failure. -/
theorem C6_forward_parsing_unanchored :
    NewForward "1337 duckduckgo.com:443" =
      .ok ⟨"", 1337, "duckduckgo.com", 443⟩ ∧
    NewForward "0.0.0.0:666 instagram.com:1234" =
      .ok ⟨"0.0.0.0", 666, "instagram.com", 1234⟩ ∧
    NewForward "2222 totalylegitserver 22" =
      .error "Invalid forward: \"2222 totalylegitserver 22\"" ∧
    ∀ f : String,
      NewForward f = .error ("Invalid forward: " ++ goQuote f) ↔
        fwdSearch f.data = none := by
  refine ⟨rfl, rfl, rfl, fun f => ⟨?_, ?_⟩⟩
  · intro h
    cases hs : fwdSearch f.data with
    | none => rfl
    | some m =>
      exfalso
      obtain ⟨m2, m3, m4, m5⟩ := m
      simp only [NewForward, hs] at h
      cases h3 : goAtoi m3 with
      | error e =>
        simp only [h3] at h
        injection h with h2
        obtain ⟨t, ht⟩ := goAtoi_error_shape m3 e h3
        exact invalidForward_ne_atoi (goQuote f) t (h2.symm.trans ht)
      | ok v =>
        cases h5 : goAtoi m5 with
        | error e =>
          simp only [h3, h5] at h
          injection h with h2
          obtain ⟨t, ht⟩ := goAtoi_error_shape m5 e h5
          exact invalidForward_ne_atoi (goQuote f) t (h2.symm.trans ht)
        | ok v2 =>
          simp only [h3, h5] at h
          exact Except.noConfusion h
  · intro h
    unfold NewForward
    rw [h]

/-- C6 witness: the error characterization applied to a concrete input with
no matching substring. -/
theorem C6_forward_parsing_unanchored_witness :
    NewForward "just some words" =
      .error ("Invalid forward: " ++ goQuote "just some words") :=
  (C6_forward_parsing_unanchored.2.2.2 "just some words").mpr (by rfl)

/-- C7: after all wildcard merges every record of a successful parse has a
non-zero port (any record still at the unset marker 0 was set to 22), a
block with an explicit `Port 0` is indistinguishable from one with no
`Port` directive, and a block with no `Port` directive yields port 22. -/
theorem C7_default_port :
    (∀ (inc : String → String → Except String (List SSHHost))
        (input path : String) (hosts : List SSHHost) (e : Option String),
      parse inc input path = (some hosts, e) → ∀ h ∈ hosts, h.Port ≠ 0) ∧
    parse noIncludeFiles "Host a\nPort 0" "p" =
      parse noIncludeFiles "Host a" "p" ∧
    parse noIncludeFiles "Host a" "p" =
      (some [⟨["a"], "", "", 22, "", "", "", [], [], [], [], []⟩], none) := by
  refine ⟨?_, rfl, rfl⟩
  intro inc input path hosts e hp h hm
  unfold parse at hp
  cases hl : parseLoop inc path (lexAll input) [] [] none with
  | error err =>
    rw [hl] at hp
    cases hp
  | ok pr =>
    obtain ⟨cfgs, wilds⟩ := pr
    rw [hl] at hp
    simp only [Prod.mk.injEq, Option.some.injEq] at hp
    rw [← hp.1] at hm
    exact assertDefaultPort_port_ne_zero _ h hm

/-- C7 witness: the no-zero-port property applied to a concrete parse whose
block sets `Port 0`. -/
theorem C7_default_port_witness :
    parse noIncludeFiles "Host b\nPort 0" "p" =
      (some [⟨["b"], "", "", 22, "", "", "", [], [], [], [], []⟩], none) ∧
    (⟨["b"], "", "", 22, "", "", "", [], [], [], [], []⟩ : SSHHost).Port ≠ 0 :=
  ⟨rfl,
    C7_default_port.1 noIncludeFiles "Host b\nPort 0" "p"
      [⟨["b"], "", "", 22, "", "", "", [], [], [], [], []⟩] none rfl
      ⟨["b"], "", "", 22, "", "", "", [], [], [], [], []⟩ (by simp)⟩

/-- C8: parsing never returns partial results: whenever `parse` reports an
error the host-list component is `nil` (absent); and an error from the
include collaborator (the first error in inclusion order) is returned
verbatim, aborting the loop. -/
theorem C8_errors_return_no_hosts :
    (∀ (inc : String → String → Except String (List SSHHost))
        (input path : String),
      (parse inc input path).2.isSome = true → (parse inc input path).1 = none) ∧
    (∀ (inc : String → String → Except String (List SSHHost))
        (path v : String) (p q : Nat) (ts : List item)
        (cfgs wilds : List SSHHost) (e : String),
      inc path v = .error e →
      parseLoop inc path
          (⟨.itemInclude, "Include", p⟩ :: ⟨.itemValue, v, q⟩ :: ts)
          cfgs wilds none =
        .error e) := by
  constructor
  · intro inc input path hsome
    unfold parse at hsome ⊢
    cases hl : parseLoop inc path (lexAll input) [] [] none with
    | error err => rfl
    | ok pr =>
      obtain ⟨cfgs, wilds⟩ := pr
      rw [hl] at hsome
      simp at hsome
  · intro inc path v p q ts cfgs wilds e he
    have hred : parseLoop inc path
        (⟨.itemInclude, "Include", p⟩ :: ⟨.itemValue, v, q⟩ :: ts)
        cfgs wilds none =
        (match inc path v with
         | .error e2 => .error e2
         | .ok included => parseLoop inc path ts (cfgs ++ included) wilds none) :=
      rfl
    rw [hred, he]

/-- C8 witness: the no-partial-list property applied to a parse that fails
on an include inside a host block, and the include-error propagation
applied to a concrete collaborator error. -/
theorem C8_errors_return_no_hosts_witness :
    (parse noIncludeFiles "Host a\nInclude x" "p").1 = none ∧
    parseLoop noIncludeFiles "p"
        [⟨.itemInclude, "Include", 0⟩, ⟨.itemValue, "nope", 8⟩] [] [] none =
      .error "no files found for include path nope" :=
  ⟨C8_errors_return_no_hosts.1 noIncludeFiles "Host a\nInclude x" "p" (by rfl),
    C8_errors_return_no_hosts.2 noIncludeFiles "p" "nope" 0 8 [] [] []
      "no files found for include path nope" rfl⟩

/-- C9: a recognized non-Host, non-Include directive token arriving while no
host record is open fails with an error carrying the file path and the
token's byte position, and an `Include` token arriving while a host record
is open fails with the include-inside-host-block error. -/
theorem C9_structural_errors :
    (∀ (inc : String → String → Except String (List SSHHost)) (path : String)
        (tok : item) (ts : List item) (cfgs wilds : List SSHHost),
      isDirectiveItem tok.typ = true →
      parseLoop inc path (tok :: ts) cfgs wilds none =
        .error (path ++ ":" ++ natToDec tok.pos ++
          ": config variable before Host variable")) ∧
    (∀ (inc : String → String → Except String (List SSHHost))
        (path v : String) (p : Nat) (ts : List item)
        (cfgs wilds : List SSHHost) (h : SSHHost),
      parseLoop inc path (⟨.itemInclude, v, p⟩ :: ts) cfgs wilds (some h) =
        .error "include not allowed in Host block") := by
  constructor
  · intro inc path tok ts cfgs wilds hdir
    obtain ⟨typ, val, pos⟩ := tok
    cases typ <;> first | rfl | (cases hdir)
  · intro inc path v p ts cfgs wilds h
    rfl

/-- C9 witness: both structural errors observed at concrete tokens. -/
theorem C9_structural_errors_witness :
    parseLoop noIncludeFiles "conf" [⟨.itemPort, "Port", 7⟩] [] [] none =
      .error "conf:7: config variable before Host variable" ∧
    parseLoop noIncludeFiles "conf" [⟨.itemInclude, "Include", 3⟩] [] []
        (some emptySSHHost) =
      .error "include not allowed in Host block" :=
  ⟨C9_structural_errors.1 noIncludeFiles "conf" ⟨.itemPort, "Port", 7⟩ [] [] []
      rfl,
    C9_structural_errors.2 noIncludeFiles "conf" "Include" 3 [] [] []
      emptySSHHost⟩

/-- C10: input whose token stream holds no token before end-of-input (the
empty string, or text of only blank and comment lines) parses successfully
to the non-nil empty host list with no error. -/
theorem C10_tokenless_input_ok
    (inc : String → String → Except String (List SSHHost))
    (input path : String)
    (hall : ∀ t ∈ lexAll input, t.typ = .itemEOF) :
    parse inc input path = (some [], none) := by
  unfold parse
  cases hl : lexAll input with
  | nil => rfl
  | cons t ts =>
    have ht : t.typ = .itemEOF := hall t (by rw [hl]; exact List.mem_cons_self t ts)
    obtain ⟨typ, val, pos⟩ := t
    simp only at ht
    subst ht
    rfl

/-- C10 witness: the empty input and a comment-only input both produce the
empty list and no error. -/
theorem C10_tokenless_input_ok_witness :
    parse noIncludeFiles "" "p" = (some [], none) ∧
    parse noIncludeFiles "# a comment\n\n" "p" = (some [], none) :=
  ⟨C10_tokenless_input_ok noIncludeFiles "" "p" (by decide),
    C10_tokenless_input_ok noIncludeFiles "# a comment\n\n" "p" (by decide)⟩
